import Mathlib

/-!
Shallow embedding of the lightmap tracer core (parallel work splitting,
direct-light baking, indirect-light path tracing and edge-aware filtering
of the indirect buffer), together with theorems about its per-texel
behaviour.

Modelling conventions:
* `float` values are embedded as real numbers (`ℝ`); machine indices as `ℕ`.
* The Embree scene is an opaque external collaborator.  For the direct baker
  it is an intersection oracle `castRay : origin → direction → tfar → Option RayHit`.
  For the indirect baker, whose rays depend on random directions, the
  per-texel/per-bounce outcomes of `rtcIntersect1` (+ `rtcInterpolate0`) are
  supplied as a response trace `hits : texel → bounce → Option RayHit`, and the
  outputs of the rejection-sampling RNG `RandomDirection` as a trace
  `randomDirs : texel → bounce → Vector3`.  Every concrete execution of the
  original code induces such traces, and the traces are otherwise unconstrained.
* The per-worker scratch arrays `incomingSamples` / `incomingFactors` are
  stack-allocated and uninitialized in the source; their initial contents are
  supplied per chunk as oracles `chunkInitSamples` / `chunkInitFactors`.
* The fork-join `ParallelFor` is modelled by running the chunk callbacks
  sequentially; chunk index ranges are pairwise disjoint (proved below), so
  this sequentialization is faithful for the per-texel buffer contents.
* `assert` failures (invalid kernel radius, bounce count above capacity) are
  modelled as `Option` failure (`none`) of the corresponding entry point.
-/

namespace Urho3D

noncomputable section

/-- Two-component float vector (`Vector2`). -/
structure Vector2 where
  x_ : ℝ
  y_ : ℝ

/-- Three-component float vector (`Vector3`). -/
structure Vector3 where
  x_ : ℝ
  y_ : ℝ
  z_ : ℝ

/-- Four-component float vector (`Vector4`). -/
structure Vector4 where
  x_ : ℝ
  y_ : ℝ
  z_ : ℝ
  w_ : ℝ

/-- Two-component integer vector (`IntVector2`). -/
structure IntVector2 where
  x_ : ℤ
  y_ : ℤ

def Vector2.Length (v : Vector2) : ℝ :=
  Real.sqrt (v.x_ * v.x_ + v.y_ * v.y_)

def Vector3.add (a b : Vector3) : Vector3 :=
  ⟨a.x_ + b.x_, a.y_ + b.y_, a.z_ + b.z_⟩

def Vector3.neg (a : Vector3) : Vector3 :=
  ⟨-a.x_, -a.y_, -a.z_⟩

/-- Vector-times-scalar product (`Vector3 * float`). -/
def Vector3.smul (a : Vector3) (s : ℝ) : Vector3 :=
  ⟨a.x_ * s, a.y_ * s, a.z_ * s⟩

def Vector3.sub (a b : Vector3) : Vector3 :=
  ⟨a.x_ - b.x_, a.y_ - b.y_, a.z_ - b.z_⟩

def Vector3.DotProduct (a b : Vector3) : ℝ :=
  a.x_ * b.x_ + a.y_ * b.y_ + a.z_ * b.z_

def Vector3.LengthSquared (a : Vector3) : ℝ :=
  a.DotProduct a

def Vector3.zero : Vector3 := ⟨0, 0, 0⟩

/-- `Vector3::Normalized()`: scale to unit length when the squared length is
positive, otherwise return the vector unchanged. -/
def Vector3.Normalized (v : Vector3) : Vector3 :=
  if 0 < v.LengthSquared then v.smul (1 / Real.sqrt v.LengthSquared) else v

def Vector4.add (a b : Vector4) : Vector4 :=
  ⟨a.x_ + b.x_, a.y_ + b.y_, a.z_ + b.z_, a.w_ + b.w_⟩

/-- Vector-times-scalar product (`Vector4 * float`). -/
def Vector4.smul (a : Vector4) (s : ℝ) : Vector4 :=
  ⟨a.x_ * s, a.y_ * s, a.z_ * s, a.w_ * s⟩

/-- Vector-by-scalar division (`Vector4 / float`). -/
def Vector4.divScalar (a : Vector4) (s : ℝ) : Vector4 :=
  ⟨a.x_ / s, a.y_ / s, a.z_ / s, a.w_ / s⟩

def Vector4.zero : Vector4 := ⟨0, 0, 0, 0⟩

def IntVector2.add (a b : IntVector2) : IntVector2 :=
  ⟨a.x_ + b.x_, a.y_ + b.y_⟩

/-- Vector-times-scalar product (`IntVector2 * int`). -/
def IntVector2.mul (a : IntVector2) (s : ℤ) : IntVector2 :=
  ⟨a.x_ * s, a.y_ * s⟩

/-- `M_EPSILON` from the engine math constants. -/
def M_EPSILON : ℝ := 0.000001

/-- Chunk size used by `ParallelFor`: `(count + numThreads - 1) / numThreads`. -/
def chunkSize (count numThreads : ℕ) : ℕ :=
  (count + numThreads - 1) / numThreads

/-- Start index of the chunk assigned to worker `i`. -/
def chunkFrom (count numThreads i : ℕ) : ℕ :=
  i * chunkSize count numThreads

/-- One-past-the-end index of the chunk assigned to worker `i`
(`min (fromIndex + chunkSize) count`). -/
def chunkTo (count numThreads i : ℕ) : ℕ :=
  min (chunkFrom count numThreads i + chunkSize count numThreads) count

/-- Sequential loop over the index range `[fromIndex, toIndex)`. -/
def forRange {σ : Type*} (fromIndex toIndex : ℕ) (body : ℕ → σ → σ) (s : σ) : σ :=
  (List.range' fromIndex (toIndex - fromIndex)).foldl (fun t i => body i t) s

/-- Parallel for loop: split `[0, count)` into `numThreads` chunks of size
`chunkSize = (count + numThreads - 1) / numThreads` (last chunk clipped to
`count`) and run the callback on every chunk.  The fork-join execution is
modelled by running the chunk callbacks in sequence; the chunk ranges are
pairwise disjoint, so any interleaving of the per-chunk writes yields the
same buffer contents. -/
def ParallelFor {σ : Type*} (count numThreads : ℕ) (callback : ℕ → ℕ → σ → σ) (s : σ) : σ :=
  (List.range numThreads).foldl
    (fun t i => callback (chunkFrom count numThreads i) (chunkTo count numThreads i) t) s

/-- Generate random hemisphere direction.  The output of the rejection-sampled
`RandomDirection` is passed in as the oracle argument `randomDir`; the function
keeps the deterministic part: flip the drawn direction to the hemisphere of
`normal` when their dot product is negative. -/
def RandomHemisphereDirection (normal randomDir : Vector3) : Vector3 :=
  if randomDir.DotProduct normal < 0 then randomDir.neg else randomDir

/-- Get Gauss kernel of given radius.  Radii outside `{0, 1, 2}` hit
`assert(0)` in the source; this is modelled as `none`. -/
def GetKernel (radius : ℤ) : Option (List ℝ) :=
  if radius = 0 then some [1]
  else if radius = 1 then some [2 / 4, 1 / 4]
  else if radius = 2 then some [6 / 16, 4 / 16, 1 / 16]
  else none

/-- Get luminance of given color value (`Color::Luma()`, Rec. 601 weights). -/
def GetLuminance (color : Vector4) : ℝ :=
  color.x_ * 0.299 + color.y_ * 0.587 + color.z_ * 0.114

/-- Calculate edge-stopping weight. -/
def CalculateEdgeWeight
    (luminance1 luminance2 luminanceSigma : ℝ)
    (position1 position2 : Vector3) (positionSigma : ℝ)
    (normal1 normal2 : Vector3) (normalPower : ℝ) : ℝ :=
  let colorWeight := |luminance1 - luminance2| / luminanceSigma
  let positionWeight := (position1.sub position2).LengthSquared / positionSigma
  let normalWeight := Real.rpow (max 0 (normal1.DotProduct normal2)) normalPower
  Real.exp (0 - colorWeight - positionWeight) * normalWeight

/-- A lightmap chart: a `width × height` grid of texels. -/
structure LightmapChart where
  width_ : ℕ
  height_ : ℕ

/-- Baked geometry of a chart: per-texel world position, smooth normal and
geometry id (`0` marks an unused texel), indexed by `0 .. width*height - 1`. -/
structure LightmapChartBakedGeometry where
  width_ : ℕ
  height_ : ℕ
  geometryPositions_ : ℕ → Vector3
  smoothNormals_ : ℕ → Vector3
  geometryIds_ : ℕ → ℕ

/-- Number of texels of the chart geometry. -/
def LightmapChartBakedGeometry.size (g : LightmapChartBakedGeometry) : ℕ :=
  g.width_ * g.height_

/-- Modelled from the spec: row-major 2D grid indexing of a chart
(`IndexToLocation` is declared in the header, which is not among the
translated sources). -/
def LightmapChartBakedGeometry.IndexToLocation
    (g : LightmapChartBakedGeometry) (index : ℕ) : IntVector2 :=
  ⟨(index % g.width_ : ℕ), (index / g.width_ : ℕ)⟩

/-- Modelled from the spec: a location is valid when it lies inside the
`width × height` chart bounds. -/
def LightmapChartBakedGeometry.IsValidLocation
    (g : LightmapChartBakedGeometry) (location : IntVector2) : Prop :=
  0 ≤ location.x_ ∧ location.x_ < (g.width_ : ℤ) ∧
  0 ≤ location.y_ ∧ location.y_ < (g.height_ : ℤ)

instance (g : LightmapChartBakedGeometry) (location : IntVector2) :
    Decidable (g.IsValidLocation location) := by
  unfold LightmapChartBakedGeometry.IsValidLocation
  infer_instance

/-- Modelled from the spec: inverse of the row-major indexing. -/
def LightmapChartBakedGeometry.LocationToIndex
    (g : LightmapChartBakedGeometry) (location : IntVector2) : ℕ :=
  (location.x_ + (g.width_ : ℤ) * location.y_).toNat

/-- Per-chart direct radiance buffer, one RGB value per texel. -/
structure LightmapChartBakedDirect where
  width_ : ℕ
  height_ : ℕ
  light_ : ℕ → Vector3

/-- Number of texels of the direct buffer (`light_.size()`). -/
def LightmapChartBakedDirect.size (c : LightmapChartBakedDirect) : ℕ :=
  c.width_ * c.height_

/-- Modelled from the spec: a freshly allocated per-chart direct buffer,
initialized to zero. -/
def LightmapChartBakedDirect.mkChart (width height : ℕ) : LightmapChartBakedDirect :=
  ⟨width, height, fun _ => Vector3.zero⟩

/-- Modelled from the spec: nearest-sample lookup of the direct buffer at a
lightmap UV coordinate (`SampleNearest` is declared in the header, which is
not among the translated sources): the UV is scaled by the chart dimensions,
truncated and clamped to the chart bounds. -/
def LightmapChartBakedDirect.SampleNearest
    (c : LightmapChartBakedDirect) (uv : Vector2) : Vector3 :=
  let x := max 0 (min (Int.floor (uv.x_ * (c.width_ : ℝ))) ((c.width_ : ℤ) - 1))
  let y := max 0 (min (Int.floor (uv.y_ * (c.height_ : ℝ))) ((c.height_ : ℤ) - 1))
  c.light_ (x + (c.width_ : ℤ) * y).toNat

/-- Per-chart indirect radiance buffer: the current `light_` buffer and the
`lightSwap_` scratch buffer used as double buffers by the filter. -/
structure LightmapChartBakedIndirect where
  width_ : ℕ
  height_ : ℕ
  light_ : ℕ → Vector4
  lightSwap_ : ℕ → Vector4

/-- Number of texels of the indirect buffer (`light_.size()`). -/
def LightmapChartBakedIndirect.size (c : LightmapChartBakedIndirect) : ℕ :=
  c.width_ * c.height_

/-- Modelled from the spec: a freshly allocated per-chart indirect buffer;
both double buffers start at zero. -/
def LightmapChartBakedIndirect.mkChart (width height : ℕ) : LightmapChartBakedIndirect :=
  ⟨width, height, fun _ => Vector4.zero, fun _ => Vector4.zero⟩

def InitializeLightmapChartsBakedDirect (charts : List LightmapChart) :
    List LightmapChartBakedDirect :=
  charts.map (fun chart => LightmapChartBakedDirect.mkChart chart.width_ chart.height_)

def InitializeLightmapChartsBakedIndirect (charts : List LightmapChart) :
    List LightmapChartBakedIndirect :=
  charts.map (fun chart => LightmapChartBakedIndirect.mkChart chart.width_ chart.height_)

/-- Response of one `rtcIntersect1` call that found geometry: the hit
geometry's index, the hit distance written back to `ray.tfar`, the geometric
normal `Ng`, and the lightmap UV obtained from `rtcInterpolate0` at the hit's
barycentric coordinates. -/
structure RayHit where
  geomIndex : ℕ
  tfar : ℝ
  Ng : Vector3
  lightmapUV : Vector2

/-- Opaque ray-traceable scene: maximum trace distance and an intersection
oracle (`rtcIntersect1`): `none` is a miss, `some` a hit. -/
structure EmbreeScene where
  maxDistance : ℝ
  castRay : Vector3 → Vector3 → ℝ → Option RayHit

/-- Directional light parameters: direction and color (as RGB). -/
structure DirectionalLightParameters where
  direction_ : Vector3
  color_ : Vector3

/-- Lightmap tracing settings. -/
structure LightmapTracingSettings where
  numThreads_ : ℕ
  numBounces_ : ℕ
  rayPositionOffset_ : ℝ

/-- Modelled from the spec: fixed capacity of the per-bounce scratch arrays
(`LightmapTracingSettings::MaxBounces`, declared in the header, which is not
among the translated sources; the spec gives 16 as the bound). -/
def LightmapTracingSettings.MaxBounces : ℕ := 16

/-- Indirect filter parameters. -/
structure IndirectFilterParameters where
  kernelRadius_ : ℤ
  upscale_ : ℤ
  luminanceSigma_ : ℝ
  positionSigma_ : ℝ
  normalPower_ : ℝ

/-- One iteration of a per-texel loop that rewrites the buffer entry at its
own index `i` from that entry's current value. -/
def texelUpdate {V : Type*} (g : ℕ → V → V) (i : ℕ) (f : ℕ → V) : ℕ → V :=
  Function.update f i (g i (f i))

/-- One iteration of a per-texel loop that rewrites the buffer entry at its
own index `i` and additionally threads worker-local auxiliary state (the
scratch arrays) through the loop: `k` maps the texel index, the entry's
current value and the auxiliary state to the new entry and auxiliary state. -/
def texelUpdateA {V A : Type*} (k : ℕ → V → A → V × A) (i : ℕ)
    (s : (ℕ → V) × A) : (ℕ → V) × A :=
  (Function.update s.1 i (k i (s.1 i) s.2).1, (k i (s.1 i) s.2).2)

/-- Per-texel body of the direct-light baker: skip texels with geometry id 0,
otherwise cast the shadow ray and accumulate the visibility-gated Lambertian
contribution into the texel's direct value. -/
def directTexel (bakedGeometry : LightmapChartBakedGeometry)
    (castRay : Vector3 → Vector3 → ℝ → Option RayHit)
    (rayDirection : Vector3) (maxDistance : ℝ) (lightColor : Vector3)
    (i : ℕ) (v : Vector3) : Vector3 :=
  let position := bakedGeometry.geometryPositions_ i
  let smoothNormal := bakedGeometry.smoothNormals_ i
  let geometryId := bakedGeometry.geometryIds_ i
  if geometryId = 0 then v
  else
    let origin := position.add (rayDirection.smul 0.001)
    let rayHit := castRay origin rayDirection maxDistance
    let shadowFactor : ℝ := if rayHit.isSome then 0 else 1
    let directLight := max 0 (smoothNormal.DotProduct rayDirection)
    v.add ((lightColor.smul shadowFactor).smul directLight)

def BakeDirectionalLight (bakedDirect : LightmapChartBakedDirect)
    (bakedGeometry : LightmapChartBakedGeometry) (embreeScene : EmbreeScene)
    (light : DirectionalLightParameters) (settings : LightmapTracingSettings) :
    LightmapChartBakedDirect :=
  let rayDirection := (light.direction_.Normalized).neg
  let maxDistance := embreeScene.maxDistance
  let lightColor := light.color_
  { bakedDirect with
    light_ :=
      ParallelFor bakedDirect.size settings.numThreads_
        (fun fromIndex toIndex s =>
          forRange fromIndex toIndex
            (texelUpdate
              (directTexel bakedGeometry embreeScene.castRay rayDirection maxDistance lightColor))
            s)
        bakedDirect.light_ }

/-- Per-texel path state of the indirect baker: the hit counter, the current
position/normal of the path, and the worker's `incomingSamples` /
`incomingFactors` scratch arrays. -/
structure PathState where
  numSamples : ℕ
  currentPosition : Vector3
  currentNormal : Vector3
  samples : ℕ → Vector3
  factors : ℕ → ℝ

/-- One bounce (`j`) of the indirect path for texel `i`: draw a hemisphere
direction, cast the ray; on a miss keep the state, on a hit record the
direct-light sample (always taken from chart 0 of `bakedDirect`) and the
Monte-Carlo factor at slot `j`, bump the hit counter and, when more bounces
remain, advance position/normal to the hit. -/
def bounceStep (bakedDirect : List LightmapChartBakedDirect)
    (settings : LightmapTracingSettings)
    (randomDirs : ℕ → ℕ → Vector3) (hits : ℕ → ℕ → Option RayHit)
    (i j : ℕ) (st : PathState) : PathState :=
  let rayDirection := RandomHemisphereDirection st.currentNormal (randomDirs i j)
  let origin := st.currentPosition.add (st.currentNormal.smul settings.rayPositionOffset_)
  match hits i j with
  | none => st
  | some rayHit =>
      let lightmapUV := rayHit.lightmapUV
      let probability := 1 / (2 * Real.pi)
      let cosTheta := rayDirection.DotProduct st.currentNormal
      let reflectance := 1 / Real.pi
      let brdf := reflectance / Real.pi
      let sample :=
        (bakedDirect.getD 0 (LightmapChartBakedDirect.mkChart 0 0)).SampleNearest lightmapUV
      let factor := brdf * cosTheta / probability
      let st' : PathState :=
        { st with
          samples := Function.update st.samples j sample
          factors := Function.update st.factors j factor
          numSamples := st.numSamples + 1 }
      if st'.numSamples < settings.numBounces_ then
        { st' with
          currentPosition := origin.add (rayDirection.smul rayHit.tfar)
          currentNormal := rayHit.Ng.Normalized }
      else st'

/-- Accumulate samples back-to-front over the scratch-array slots
`numSamples - 1, …, 0`: `acc = (acc + samples[j]) * factors[j]`. -/
def backToFront (numSamples : ℕ) (samples : ℕ → Vector3) (factors : ℕ → ℝ) : Vector3 :=
  (List.range numSamples).reverse.foldl
    (fun acc j => (acc.add (samples j)).smul (factors j)) Vector3.zero

/-- The back-to-front combination the specification describes, as a fold over
the list of recorded (sample, weight) pairs. -/
def backToFrontPairs (pairs : List (Vector3 × ℝ)) : Vector3 :=
  pairs.reverse.foldl (fun acc p => (acc.add p.1).smul p.2) Vector3.zero

/-- Per-texel body of the indirect baker: skip empty texels; otherwise trace
`numBounces_` bounces starting from the texel's position/normal, combine the
scratch-array slots back-to-front and add the result (with alpha 1) to the
texel's indirect value.  The updated scratch arrays are threaded on to the
next texel of the chunk. -/
def indirectTexel (bakedDirect : List LightmapChartBakedDirect)
    (bakedGeometry : LightmapChartBakedGeometry)
    (settings : LightmapTracingSettings)
    (randomDirs : ℕ → ℕ → Vector3) (hits : ℕ → ℕ → Option RayHit)
    (i : ℕ) (v : Vector4) (arrays : (ℕ → Vector3) × (ℕ → ℝ)) :
    Vector4 × ((ℕ → Vector3) × (ℕ → ℝ)) :=
  let position := bakedGeometry.geometryPositions_ i
  let smoothNormal := bakedGeometry.smoothNormals_ i
  let geometryId := bakedGeometry.geometryIds_ i
  if geometryId = 0 then (v, arrays)
  else
    let st0 : PathState := ⟨0, position, smoothNormal, arrays.1, arrays.2⟩
    let st := (List.range settings.numBounces_).foldl
      (fun st j => bounceStep bakedDirect settings randomDirs hits i j st) st0
    let indirectLighting := backToFront st.numSamples st.samples st.factors
    (v.add ⟨indirectLighting.x_, indirectLighting.y_, indirectLighting.z_, 1⟩,
     (st.samples, st.factors))

def BakeIndirectLight (bakedIndirect : LightmapChartBakedIndirect)
    (bakedDirect : List LightmapChartBakedDirect)
    (bakedGeometry : LightmapChartBakedGeometry) (embreeScene : EmbreeScene)
    (settings : LightmapTracingSettings)
    (randomDirs : ℕ → ℕ → Vector3) (hits : ℕ → ℕ → Option RayHit)
    (chunkInitSamples : ℕ → ℕ → Vector3) (chunkInitFactors : ℕ → ℕ → ℝ) :
    Option LightmapChartBakedIndirect :=
  if settings.numBounces_ ≤ LightmapTracingSettings.MaxBounces then
    some { bakedIndirect with
      light_ :=
        ParallelFor bakedIndirect.size settings.numThreads_
          (fun fromIndex toIndex s =>
            (forRange fromIndex toIndex
              (texelUpdateA (indirectTexel bakedDirect bakedGeometry settings randomDirs hits))
              (s, (chunkInitSamples fromIndex, chunkInitFactors fromIndex))).1)
          bakedIndirect.light_ }
  else none

/-- One `(dy, dx)` tap of the filter's kernel loop at texel `index`: skip the
center offset, out-of-bounds neighbors and empty neighbors, otherwise add the
edge-weighted, kernel-weighted neighbor color to the running color sum and the
weight product to the running weight sum. -/
def filterTap (bakedGeometry : LightmapChartBakedGeometry) (light : ℕ → Vector4)
    (params : IndirectFilterParameters) (kernelWeights : List ℝ) (index : ℕ)
    (dy dx : ℤ) (acc : Vector4 × ℝ) : Vector4 × ℝ :=
  let centerLocation := bakedGeometry.IndexToLocation index
  let centerLuminance := GetLuminance (light index)
  let centerPosition := bakedGeometry.geometryPositions_ index
  let centerNormal := bakedGeometry.smoothNormals_ index
  if dx = 0 ∧ dy = 0 then acc
  else
    let offset := IntVector2.mul ⟨dx, dy⟩ params.upscale_
    let otherLocation := centerLocation.add offset
    if ¬ bakedGeometry.IsValidLocation otherLocation then acc
    else
      let dxdy := (Vector2.mk (dx : ℝ) (dy : ℝ)).Length
      let kernel := kernelWeights.getD dx.natAbs 0 * kernelWeights.getD dy.natAbs 0
      let otherIndex := bakedGeometry.LocationToIndex otherLocation
      if bakedGeometry.geometryIds_ otherIndex = 0 then acc
      else
        let otherColor := light otherIndex
        let weight := CalculateEdgeWeight
          centerLuminance (GetLuminance otherColor) params.luminanceSigma_
          centerPosition (bakedGeometry.geometryPositions_ otherIndex)
          (dxdy * params.positionSigma_)
          centerNormal (bakedGeometry.smoothNormals_ otherIndex) params.normalPower_
        (acc.1.add (otherColor.smul (weight * kernel)), acc.2 + weight * kernel)

/-- The filter's per-texel accumulator: starting from the center color
weighted by `kernel[0] * kernel[0]`, fold the kernel taps over all offsets
`(dy, dx)` in `[-kernelRadius, kernelRadius]²`. -/
def filterAccum (bakedGeometry : LightmapChartBakedGeometry) (light : ℕ → Vector4)
    (params : IndirectFilterParameters) (kernelWeights : List ℝ) (index : ℕ) :
    Vector4 × ℝ :=
  let centerColor := light index
  let offsets : List ℤ :=
    (List.range (2 * params.kernelRadius_ + 1).toNat).map
      (fun k => -params.kernelRadius_ + (k : ℤ))
  offsets.foldl (fun acc dy =>
    offsets.foldl (fun acc dx =>
      filterTap bakedGeometry light params kernelWeights index dy dx acc) acc)
    (centerColor.smul (kernelWeights.getD 0 0 * kernelWeights.getD 0 0),
     kernelWeights.getD 0 0 * kernelWeights.getD 0 0)

/-- Filtered value written to the scratch buffer for texel `index`:
`colorSum / max(M_EPSILON, colorWeight)`. -/
def filterTexelValue (bakedGeometry : LightmapChartBakedGeometry) (light : ℕ → Vector4)
    (params : IndirectFilterParameters) (kernelWeights : List ℝ) (index : ℕ) : Vector4 :=
  let acc := filterAccum bakedGeometry light params kernelWeights index
  acc.1.divScalar (max M_EPSILON acc.2)

/-- Per-texel body of the filter: skip empty texels, otherwise overwrite the
scratch entry with the filtered value computed from the `light` buffer. -/
def filterTexel (bakedGeometry : LightmapChartBakedGeometry) (light : ℕ → Vector4)
    (params : IndirectFilterParameters) (kernelWeights : List ℝ)
    (index : ℕ) (v : Vector4) : Vector4 :=
  if bakedGeometry.geometryIds_ index = 0 then v
  else filterTexelValue bakedGeometry light params kernelWeights index

/-- Edge-aware filter over the indirect buffer: read `light_`, write the
filtered values into `lightSwap_`, then swap the two buffers.  An unsupported
kernel radius fails the `GetKernel` assertion, modelled as `none`. -/
def FilterIndirectLight (bakedIndirect : LightmapChartBakedIndirect)
    (bakedGeometry : LightmapChartBakedGeometry)
    (params : IndirectFilterParameters) (numThreads : ℕ) :
    Option LightmapChartBakedIndirect :=
  match GetKernel params.kernelRadius_ with
  | none => none
  | some kernelWeights =>
      let newSwap :=
        ParallelFor bakedIndirect.size numThreads
          (fun fromIndex toIndex s =>
            forRange fromIndex toIndex
              (texelUpdate (filterTexel bakedGeometry bakedIndirect.light_ params kernelWeights))
              s)
          bakedIndirect.lightSwap_
      some { bakedIndirect with
        light_ := newSwap
        lightSwap_ := bakedIndirect.light_ }

/-! Concrete single-texel fixtures used to instantiate the theorems below. -/

/-- A 1×1 chart geometry whose only texel carries geometry. -/
def exGeom : LightmapChartBakedGeometry :=
  ⟨1, 1, fun _ => Vector3.zero, fun _ => ⟨0, 0, 1⟩, fun _ => 1⟩

/-- A 1×1 chart geometry whose only texel is empty (geometry id 0). -/
def exGeomEmpty : LightmapChartBakedGeometry :=
  ⟨1, 1, fun _ => Vector3.zero, fun _ => ⟨0, 0, 1⟩, fun _ => 0⟩

/-- A scene in which every ray misses. -/
def exScene : EmbreeScene := ⟨100, fun _ _ _ => none⟩

/-- A sample hit record: hit distance 1, upward normal, UV at the origin. -/
def exHit : RayHit := ⟨0, 1, ⟨0, 0, 1⟩, ⟨0, 0⟩⟩

/-- A directional light shining straight down, with white color. -/
def exLight : DirectionalLightParameters := ⟨⟨0, 0, -1⟩, ⟨1, 1, 1⟩⟩

/-- Settings: one worker, zero bounces. -/
def exSettings : LightmapTracingSettings := ⟨1, 0, 0⟩

/-- Settings: one worker, two bounces. -/
def exSettingsTwoBounces : LightmapTracingSettings := ⟨1, 2, 0⟩

/-- Settings: one worker, 17 bounces (beyond the bounce capacity). -/
def exSettingsOverCap : LightmapTracingSettings := ⟨1, 17, 0⟩

/-- A 1×1 direct buffer holding zero radiance. -/
def exDirect : LightmapChartBakedDirect := ⟨1, 1, fun _ => Vector3.zero⟩

/-- A 1×1 direct buffer holding pure green radiance. -/
def exDirectGreen : LightmapChartBakedDirect := ⟨1, 1, fun _ => ⟨0, 1, 0⟩⟩

/-- A 1×1 indirect buffer with both double buffers at zero. -/
def exIndirect : LightmapChartBakedIndirect :=
  ⟨1, 1, fun _ => Vector4.zero, fun _ => Vector4.zero⟩

/-- Filter parameters with kernel radius 0. -/
def exParamsRadiusZero : IndirectFilterParameters := ⟨0, 1, 1, 1, 1⟩

/-- Filter parameters with unsupported kernel radius 3. -/
def exParamsRadiusThree : IndirectFilterParameters := ⟨3, 1, 1, 1, 1⟩

/-- Random-direction trace: always the upward unit vector. -/
def exDirs : ℕ → ℕ → Vector3 := fun _ _ => ⟨0, 0, 1⟩

/-- Intersection trace: every ray misses. -/
def exHitsNone : ℕ → ℕ → Option RayHit := fun _ _ => none

/-- Intersection trace: every ray hits `exHit`. -/
def exHitsAll : ℕ → ℕ → Option RayHit := fun _ _ => some exHit

/-- Intersection trace: bounce 0 misses and bounce 1 hits `exHit`. -/
def exHitsSecondBounce : ℕ → ℕ → Option RayHit := fun _ j => if j = 1 then some exHit else none

/-- Stale initial contents of the per-worker `incomingSamples` array. -/
def exStaleSamples : ℕ → ℕ → Vector3 := fun _ _ => ⟨5, 0, 0⟩

/-- Stale initial contents of the per-worker `incomingFactors` array. -/
def exStaleFactors : ℕ → ℕ → ℝ := fun _ _ => 7

/-- A path state with upward normal and zeroed scratch arrays. -/
def exPathState : PathState :=
  ⟨0, Vector3.zero, ⟨0, 0, 1⟩, fun _ => Vector3.zero, fun _ => 0⟩

/-- The per-texel direct-light contribution as the specification words it:
`lightColor * visibility * max(0, dot(smoothNormal, -lightDirection))`, with
visibility 1 exactly when the shadow ray (origin offset by 0.001 along the
reverse light direction, cast along the reverse light direction out to the
scene's max distance) finds no intersection. -/
def specDirectContribution (bakedGeometry : LightmapChartBakedGeometry)
    (embreeScene : EmbreeScene) (light : DirectionalLightParameters) (i : ℕ) : Vector3 :=
  let reverseLightDirection := (light.direction_.Normalized).neg
  let origin := (bakedGeometry.geometryPositions_ i).add (reverseLightDirection.smul 0.001)
  let visibility : ℝ :=
    match embreeScene.castRay origin reverseLightDirection embreeScene.maxDistance with
    | none => 1
    | some _ => 0
  let lambertianTerm :=
    max 0 ((bakedGeometry.smoothNormals_ i).DotProduct reverseLightDirection)
  light.color_.smul (visibility * lambertianTerm)

/-!
Pointwise semantics of the chunked per-texel loops.

A per-texel loop body only rewrites the buffer entry at its own index, from
that entry's current value (and, for the indirect baker, from the
worker-local scratch state).  The lemmas below compute the final buffer
entry at every index for a fold of such bodies over an index range, over
the worker chunks, and for a whole `ParallelFor`.
-/

theorem foldG_other {V : Type*} (g : ℕ → V → V) :
    ∀ (n a : ℕ) (s : ℕ → V) (j : ℕ), j < a ∨ a + n ≤ j →
      ((List.range' a n).foldl (fun t i => texelUpdate g i t) s) j = s j := by
  intro n
  induction n with
  | zero => intro a s j _; rfl
  | succ n ih =>
      intro a s j hj
      rw [List.range'_succ]
      simp only [List.foldl_cons]
      rw [ih (a + 1) _ j (by omega)]
      simp only [texelUpdate]
      exact Function.update_noteq (by omega) _ _

theorem foldG_mem {V : Type*} (g : ℕ → V → V) :
    ∀ (n a : ℕ) (s : ℕ → V) (j : ℕ), a ≤ j → j < a + n →
      ((List.range' a n).foldl (fun t i => texelUpdate g i t) s) j = g j (s j) := by
  intro n
  induction n with
  | zero => intro a s j h1 h2; omega
  | succ n ih =>
      intro a s j h1 h2
      rw [List.range'_succ]
      simp only [List.foldl_cons]
      by_cases hja : j = a
      · subst hja
        rw [foldG_other g n (j + 1) _ j (Or.inl (by omega))]
        simp only [texelUpdate]
        exact Function.update_same _ _ _
      · rw [ih (a + 1) _ j (by omega) (by omega)]
        simp only [texelUpdate]
        rw [Function.update_noteq hja]

theorem foldA_other {V A : Type*} (k : ℕ → V → A → V × A) :
    ∀ (n a : ℕ) (s : (ℕ → V) × A) (j : ℕ), j < a ∨ a + n ≤ j →
      ((List.range' a n).foldl (fun t i => texelUpdateA k i t) s).1 j = s.1 j := by
  intro n
  induction n with
  | zero => intro a s j _; rfl
  | succ n ih =>
      intro a s j hj
      rw [List.range'_succ]
      simp only [List.foldl_cons]
      rw [ih (a + 1) _ j (by omega)]
      simp only [texelUpdateA]
      exact Function.update_noteq (by omega) _ _

theorem foldA_mem {V A : Type*} (k : ℕ → V → A → V × A) :
    ∀ (n a : ℕ) (s : (ℕ → V) × A) (j : ℕ), a ≤ j → j < a + n →
      ∃ arr : A,
        ((List.range' a n).foldl (fun t i => texelUpdateA k i t) s).1 j = (k j (s.1 j) arr).1 := by
  intro n
  induction n with
  | zero => intro a s j h1 h2; omega
  | succ n ih =>
      intro a s j h1 h2
      rw [List.range'_succ]
      simp only [List.foldl_cons]
      by_cases hja : j = a
      · subst hja
        refine ⟨s.2, ?_⟩
        rw [foldA_other k n (j + 1) _ j (Or.inl (by omega))]
        simp only [texelUpdateA]
        exact Function.update_same _ _ _
      · obtain ⟨arr, harr⟩ := ih (a + 1) (texelUpdateA k a s) j (by omega) (by omega)
        refine ⟨arr, ?_⟩
        rw [harr]
        simp only [texelUpdateA]
        rw [Function.update_noteq hja]

theorem count_le_mul_chunkSize (count T : ℕ) (hT : 1 ≤ T) :
    count ≤ T * chunkSize count T := by
  unfold chunkSize
  have h1 : T * ((count + T - 1) / T) + (count + T - 1) % T = count + T - 1 :=
    Nat.div_add_mod _ _
  have h2 : (count + T - 1) % T < T := Nat.mod_lt _ (by omega)
  omega

theorem threadsFold {V A : Type*} (R : ℕ → ℕ → (ℕ → V) → (ℕ → V)) (val : ℕ → V → A → V)
    (hother : ∀ a b s j, j < a ∨ b ≤ j → R a b s j = s j)
    (hmem : ∀ a b s j, a ≤ j → j < b → ∃ arr, R a b s j = val j (s j) arr)
    (count T : ℕ) :
    ∀ (m : ℕ) (f : ℕ → V) (j : ℕ),
      (min (m * chunkSize count T) count ≤ j →
        ((List.range m).foldl (fun t i => R (chunkFrom count T i) (chunkTo count T i) t) f) j
          = f j) ∧
      (j < min (m * chunkSize count T) count →
        ∃ arr,
          ((List.range m).foldl (fun t i => R (chunkFrom count T i) (chunkTo count T i) t) f) j
            = val j (f j) arr) := by
  intro m
  induction m with
  | zero =>
      intro f j
      refine ⟨fun _ => rfl, fun hj => absurd hj (by simp)⟩
  | succ m ih =>
      intro f j
      have hfold :
          (List.range (m + 1)).foldl (fun t i => R (chunkFrom count T i) (chunkTo count T i) t) f
            = R (chunkFrom count T m) (chunkTo count T m)
                ((List.range m).foldl (fun t i => R (chunkFrom count T i) (chunkTo count T i) t) f) := by
        rw [List.range_succ, List.foldl_append]
        rfl
      have hsm : (m + 1) * chunkSize count T = m * chunkSize count T + chunkSize count T :=
        Nat.succ_mul m _
      constructor
      · intro hj
        have hj' : min (m * chunkSize count T) count ≤ j := by
          refine le_trans (min_le_min ?_ le_rfl) hj
          omega
        have h3 : chunkTo count T m ≤ j := by
          unfold chunkTo chunkFrom
          omega
        rw [hfold, hother _ _ _ j (Or.inr h3), (ih f j).1 hj']
      · intro hj
        rw [hfold]
        by_cases hcase : j < min (m * chunkSize count T) count
        · obtain ⟨arr, harr⟩ := (ih f j).2 hcase
          have hja : j < chunkFrom count T m := by
            unfold chunkFrom
            omega
          rw [hother _ _ _ j (Or.inl hja), harr]
          exact ⟨arr, rfl⟩
        · push_neg at hcase
          have hfj := (ih f j).1 hcase
          have hfrom : chunkFrom count T m ≤ j := by
            unfold chunkFrom
            omega
          have hto : j < chunkTo count T m := by
            unfold chunkTo chunkFrom
            omega
          obtain ⟨arr, harr⟩ := hmem _ _ _ j hfrom hto
          rw [harr, hfj]
          exact ⟨arr, rfl⟩

theorem parallelFor_pointwise {V A : Type*} (R : ℕ → ℕ → (ℕ → V) → (ℕ → V))
    (val : ℕ → V → A → V)
    (hother : ∀ a b s j, j < a ∨ b ≤ j → R a b s j = s j)
    (hmem : ∀ a b s j, a ≤ j → j < b → ∃ arr, R a b s j = val j (s j) arr)
    (count T : ℕ) (hT : 1 ≤ T) (f : ℕ → V) (j : ℕ) :
    (count ≤ j → ParallelFor count T R f j = f j) ∧
    (j < count → ∃ arr, ParallelFor count T R f j = val j (f j) arr) := by
  have hmin : min (T * chunkSize count T) count = count :=
    min_eq_right (count_le_mul_chunkSize count T hT)
  have h := threadsFold R val hother hmem count T T f j
  rw [hmin] at h
  exact h

theorem parallelFor_texelG {V : Type*} (g : ℕ → V → V) (count T : ℕ) (hT : 1 ≤ T)
    (f : ℕ → V) (j : ℕ) :
    (count ≤ j →
      ParallelFor count T (fun a b s => forRange a b (texelUpdate g) s) f j = f j) ∧
    (j < count →
      ParallelFor count T (fun a b s => forRange a b (texelUpdate g) s) f j = g j (f j)) := by
  have h := parallelFor_pointwise (A := Unit)
    (fun a b s => forRange a b (texelUpdate g) s) (fun j v _ => g j v)
    (fun a b s j hj => by
      unfold forRange
      exact foldG_other g (b - a) a s j (by omega))
    (fun a b s j h1 h2 => ⟨(), by
      unfold forRange
      exact foldG_mem g (b - a) a s j h1 (by omega)⟩)
    count T hT f j
  refine ⟨h.1, fun hj => ?_⟩
  obtain ⟨arr, harr⟩ := h.2 hj
  exact harr

theorem parallelFor_texelA {V A : Type*} (k : ℕ → V → A → V × A) (cInit : ℕ → A)
    (count T : ℕ) (hT : 1 ≤ T) (f : ℕ → V) (j : ℕ) :
    (count ≤ j →
      ParallelFor count T
        (fun a b s => (forRange a b (texelUpdateA k) (s, cInit a)).1) f j = f j) ∧
    (j < count →
      ∃ arr : A,
        ParallelFor count T
          (fun a b s => (forRange a b (texelUpdateA k) (s, cInit a)).1) f j
          = (k j (f j) arr).1) := by
  exact parallelFor_pointwise (A := A)
    (fun a b s => (forRange a b (texelUpdateA k) (s, cInit a)).1)
    (fun j v arr => (k j v arr).1)
    (fun a b s j hj => by
      unfold forRange
      exact foldA_other k (b - a) a (s, cInit a) j (by omega))
    (fun a b s j h1 h2 => by
      unfold forRange
      exact foldA_mem k (b - a) a (s, cInit a) j h1 (by omega))
    count T hT f j

/-- C2: for every `count ≥ 0` and `numThreads ≥ 1`, `ParallelFor` runs the
callback once per worker on the chunk `[i * chunkSize, min (i * chunkSize +
chunkSize) count)` where `chunkSize = (count + numThreads - 1) / numThreads`
is the ceiling of `count / numThreads` (characterized by `count ≤ numThreads *
chunkSize < count + numThreads`); the chunks stay inside `[0, count)`, are
pairwise disjoint, and cover every index of `[0, count)`, and the (fork-join)
call is the sequential composition of all the chunk callbacks. -/
theorem parallelFor_partitions {σ : Type*} (count numThreads : ℕ) (hT : 1 ≤ numThreads) :
    (count ≤ numThreads * chunkSize count numThreads ∧
      numThreads * chunkSize count numThreads < count + numThreads) ∧
    (∀ j, j < count ↔
      ∃ i, i < numThreads ∧ chunkFrom count numThreads i ≤ j ∧ j < chunkTo count numThreads i) ∧
    (∀ i₁ i₂ j, chunkFrom count numThreads i₁ ≤ j → j < chunkTo count numThreads i₁ →
      chunkFrom count numThreads i₂ ≤ j → j < chunkTo count numThreads i₂ → i₁ = i₂) ∧
    (∀ i, chunkTo count numThreads i ≤ count) ∧
    (∀ (callback : ℕ → ℕ → σ → σ) (s : σ),
      ParallelFor count numThreads callback s =
        (List.range numThreads).foldl
          (fun t i => callback (chunkFrom count numThreads i) (chunkTo count numThreads i) t) s) := by
  have hc := count_le_mul_chunkSize count numThreads hT
  have hupper : numThreads * chunkSize count numThreads < count + numThreads := by
    unfold chunkSize
    have h1 :
        numThreads * ((count + numThreads - 1) / numThreads) + (count + numThreads - 1) % numThreads
          = count + numThreads - 1 := Nat.div_add_mod _ _
    omega
  have hcpos : ∀ j, j < count → 0 < chunkSize count numThreads := by
    intro j hj
    by_contra h
    have h0 : chunkSize count numThreads = 0 := by omega
    rw [h0, Nat.mul_zero] at hc
    omega
  refine ⟨⟨hc, hupper⟩, fun j => ⟨fun hj => ?_, fun hj => ?_⟩, fun i₁ i₂ j h11 h12 h21 h22 => ?_,
    fun i => min_le_right _ _, fun callback s => rfl⟩
  · -- every j < count lies in the chunk of worker j / chunkSize
    set c := chunkSize count numThreads with hcdef
    have hc0 : 0 < c := hcpos j hj
    refine ⟨j / c, ?_, ?_, ?_⟩
    · exact (Nat.div_lt_iff_lt_mul hc0).mpr (lt_of_lt_of_le hj hc)
    · exact Nat.div_mul_le_self j c
    · have hmod := Nat.div_add_mod j c
      have hlt := Nat.mod_lt j hc0
      have hcomm : c * (j / c) = (j / c) * c := Nat.mul_comm _ _
      unfold chunkTo chunkFrom
      rw [← hcdef]
      omega
  · obtain ⟨i, _, _, hto⟩ := hj
    exact lt_of_lt_of_le hto (min_le_right _ _)
  · -- pairwise disjointness: a texel determines its worker
    set c := chunkSize count numThreads with hcdef
    have hc0 : 0 < c := by
      rcases Nat.eq_zero_or_pos c with h0 | h0
      · exfalso
        unfold chunkTo chunkFrom at h12
        rw [← hcdef, h0] at h12
        omega
      · exact h0
    have hdiv : ∀ i, chunkFrom count numThreads i ≤ j → j < chunkTo count numThreads i →
        j / c = i := by
      intro i hfrom hto
      unfold chunkFrom at hfrom
      unfold chunkTo chunkFrom at hto
      rw [← hcdef] at hfrom hto
      refine Nat.div_eq_of_lt_le hfrom ?_
      have : j < i * c + c := lt_of_lt_of_le hto (min_le_left _ _)
      rw [Nat.succ_mul]
      exact this
    rw [← hdiv i₁ h11 h12, ← hdiv i₂ h21 h22]

/-- Witness for C2 at `count = 5`, `numThreads = 2`: texel 3 lies in exactly
the second worker's chunk. -/
theorem parallelFor_partitions_witness :
    3 < 5 ↔ ∃ i, i < 2 ∧ chunkFrom 5 2 i ≤ 3 ∧ 3 < chunkTo 5 2 i :=
  ((parallelFor_partitions (σ := ℕ) 5 2 (by norm_num)).2.1) 3

theorem Vector3.smul_smul (v : Vector3) (a b : ℝ) :
    (v.smul a).smul b = v.smul (a * b) := by
  simp only [Vector3.smul, Vector3.mk.injEq]
  refine ⟨?_, ?_, ?_⟩ <;> ring

/-- The size of the direct buffer is unchanged by the direct baker. -/
theorem bakeDirectional_size (bakedDirect : LightmapChartBakedDirect)
    (bakedGeometry : LightmapChartBakedGeometry) (embreeScene : EmbreeScene)
    (light : DirectionalLightParameters) (settings : LightmapTracingSettings) :
    (BakeDirectionalLight bakedDirect bakedGeometry embreeScene light settings).size
      = bakedDirect.size := rfl

/-- One direct-baker call rewrites a non-empty in-range texel to its old value
plus the shadow-gated Lambertian contribution. -/
theorem bakeDirectional_texel (bakedDirect : LightmapChartBakedDirect)
    (bakedGeometry : LightmapChartBakedGeometry) (embreeScene : EmbreeScene)
    (light : DirectionalLightParameters) (settings : LightmapTracingSettings) (i : ℕ)
    (hT : 1 ≤ settings.numThreads_) (hi : i < bakedDirect.size)
    (hgeom : bakedGeometry.geometryIds_ i ≠ 0) :
    (BakeDirectionalLight bakedDirect bakedGeometry embreeScene light settings).light_ i
      = (bakedDirect.light_ i).add (specDirectContribution bakedGeometry embreeScene light i) := by
  have h := (parallelFor_texelG
    (directTexel bakedGeometry embreeScene.castRay ((light.direction_.Normalized).neg)
      embreeScene.maxDistance light.color_)
    bakedDirect.size settings.numThreads_ hT bakedDirect.light_ i).2 hi
  simp only [BakeDirectionalLight]
  rw [h]
  simp only [directTexel, specDirectContribution, if_neg hgeom]
  rcases hc : embreeScene.castRay
      ((bakedGeometry.geometryPositions_ i).add (((light.direction_.Normalized).neg).smul 0.001))
      ((light.direction_.Normalized).neg) embreeScene.maxDistance with _ | rayHit
  · simp only [hc, Option.isSome_none, Bool.false_eq_true, if_false,
      Vector3.smul_smul, one_mul]
  · simp only [hc, Option.isSome_some, if_true, Vector3.smul_smul, zero_mul]

/-- The skipped-texel case of the direct baker: geometry id 0 leaves the
entry untouched. -/
theorem bakeDirectional_texel_empty (bakedDirect : LightmapChartBakedDirect)
    (bakedGeometry : LightmapChartBakedGeometry) (embreeScene : EmbreeScene)
    (light : DirectionalLightParameters) (settings : LightmapTracingSettings) (i : ℕ)
    (hT : 1 ≤ settings.numThreads_)
    (hgeom : bakedGeometry.geometryIds_ i = 0) :
    (BakeDirectionalLight bakedDirect bakedGeometry embreeScene light settings).light_ i
      = bakedDirect.light_ i := by
  have h := parallelFor_texelG
    (directTexel bakedGeometry embreeScene.castRay ((light.direction_.Normalized).neg)
      embreeScene.maxDistance light.color_)
    bakedDirect.size settings.numThreads_ hT bakedDirect.light_ i
  simp only [BakeDirectionalLight]
  rcases lt_or_le i bakedDirect.size with hi | hi
  · rw [h.2 hi]
    simp only [directTexel, if_pos hgeom]
  · exact h.1 hi

/-- C4: one direct-baker call adds exactly
`lightColor * visibility * max(0, dot(smoothNormal, -lightDirection))` to every
non-empty texel's direct value (visibility from the offset shadow ray), and a
second call with another light adds its own contribution on top. -/
theorem bakeDirectionalLight_accumulates (bakedDirect : LightmapChartBakedDirect)
    (bakedGeometry : LightmapChartBakedGeometry) (embreeScene : EmbreeScene)
    (light light2 : DirectionalLightParameters) (settings : LightmapTracingSettings) (i : ℕ)
    (hT : 1 ≤ settings.numThreads_) (hi : i < bakedDirect.size)
    (hgeom : bakedGeometry.geometryIds_ i ≠ 0) :
    ((BakeDirectionalLight bakedDirect bakedGeometry embreeScene light settings).light_ i
      = (bakedDirect.light_ i).add (specDirectContribution bakedGeometry embreeScene light i))
    ∧ ((BakeDirectionalLight
          (BakeDirectionalLight bakedDirect bakedGeometry embreeScene light settings)
          bakedGeometry embreeScene light2 settings).light_ i
      = ((bakedDirect.light_ i).add (specDirectContribution bakedGeometry embreeScene light i)).add
          (specDirectContribution bakedGeometry embreeScene light2 i)) := by
  have h1 := bakeDirectional_texel bakedDirect bakedGeometry embreeScene light settings i
    hT hi hgeom
  have h2 := bakeDirectional_texel
    (BakeDirectionalLight bakedDirect bakedGeometry embreeScene light settings)
    bakedGeometry embreeScene light2 settings i hT
    (by rw [bakeDirectional_size]; exact hi) hgeom
  exact ⟨h1, by rw [h2, h1]⟩

/-- Witness for C4 on the 1×1 fixture: the lit texel gains the white light's
contribution. -/
theorem bakeDirectionalLight_accumulates_witness :
    (BakeDirectionalLight exDirect exGeom exScene exLight exSettings).light_ 0
      = (exDirect.light_ 0).add (specDirectContribution exGeom exScene exLight 0) :=
  (bakeDirectionalLight_accumulates exDirect exGeom exScene exLight exLight exSettings 0
    (by decide) (by decide) (by decide)).1

/-- C1: a texel whose geometry id is 0 is not modified by the direct baker,
the indirect baker or the filter; for the filter, the current `light_` buffer
observed after the internal swap keeps the texel's pre-call value, using that
the two double buffers agree on the (never-written) empty texel, as they do
from initialization on. -/
theorem geometryIdZero_neverModified (bakedDirect : LightmapChartBakedDirect)
    (bakedIndirect : LightmapChartBakedIndirect)
    (bakedGeometry : LightmapChartBakedGeometry) (embreeScene : EmbreeScene)
    (light : DirectionalLightParameters) (settings : LightmapTracingSettings)
    (bakedDirectCharts : List LightmapChartBakedDirect)
    (randomDirs : ℕ → ℕ → Vector3) (hits : ℕ → ℕ → Option RayHit)
    (chunkInitSamples : ℕ → ℕ → Vector3) (chunkInitFactors : ℕ → ℕ → ℝ)
    (params : IndirectFilterParameters) (numThreads : ℕ) (i : ℕ)
    (hT : 1 ≤ settings.numThreads_) (hT2 : 1 ≤ numThreads)
    (hgeom : bakedGeometry.geometryIds_ i = 0) :
    ((BakeDirectionalLight bakedDirect bakedGeometry embreeScene light settings).light_ i
      = bakedDirect.light_ i)
    ∧ (∀ out, BakeIndirectLight bakedIndirect bakedDirectCharts bakedGeometry embreeScene
          settings randomDirs hits chunkInitSamples chunkInitFactors = some out →
        out.light_ i = bakedIndirect.light_ i)
    ∧ (∀ out, FilterIndirectLight bakedIndirect bakedGeometry params numThreads = some out →
        bakedIndirect.lightSwap_ i = bakedIndirect.light_ i →
        out.light_ i = bakedIndirect.light_ i) := by
  refine ⟨bakeDirectional_texel_empty bakedDirect bakedGeometry embreeScene light settings i
    hT hgeom, fun out hout => ?_, fun out hout hsync => ?_⟩
  · by_cases hb : settings.numBounces_ ≤ LightmapTracingSettings.MaxBounces
    · simp only [BakeIndirectLight, if_pos hb, Option.some.injEq] at hout
      subst hout
      have h := parallelFor_texelA
        (indirectTexel bakedDirectCharts bakedGeometry settings randomDirs hits)
        (fun fromIndex => (chunkInitSamples fromIndex, chunkInitFactors fromIndex))
        bakedIndirect.size settings.numThreads_ hT bakedIndirect.light_ i
      dsimp only
      rcases lt_or_le i bakedIndirect.size with hi | hi
      · obtain ⟨arr, harr⟩ := h.2 hi
        rw [harr]
        simp only [indirectTexel, if_pos hgeom]
      · exact h.1 hi
    · simp only [BakeIndirectLight, if_neg hb] at hout
      exact absurd hout (by simp)
  · rcases hk : GetKernel params.kernelRadius_ with _ | kernelWeights
    · simp only [FilterIndirectLight, hk] at hout
      exact absurd hout (by simp)
    · simp only [FilterIndirectLight, hk, Option.some.injEq] at hout
      subst hout
      have h := parallelFor_texelG
        (filterTexel bakedGeometry bakedIndirect.light_ params kernelWeights)
        bakedIndirect.size numThreads hT2 bakedIndirect.lightSwap_ i
      dsimp only
      rcases lt_or_le i bakedIndirect.size with hi | hi
      · rw [h.2 hi]
        simp only [filterTexel, if_pos hgeom]
        exact hsync
      · rw [h.1 hi]
        exact hsync

/-- Witness for C1 on the 1×1 fixture whose texel is empty. -/
theorem geometryIdZero_neverModified_witness :
    (BakeDirectionalLight exDirect exGeomEmpty exScene exLight exSettings).light_ 0
      = exDirect.light_ 0 :=
  (geometryIdZero_neverModified exDirect exIndirect exGeomEmpty exScene exLight exSettings
    [exDirect] exDirs exHitsNone exStaleSamples exStaleFactors exParamsRadiusZero 1 0
    (by decide) (by decide) (by decide)).1

/-- C9: a kernel radius outside `{0, 1, 2}` fails the `GetKernel` assertion
and the filter call aborts without continuing; a bounce count above the
bounce capacity fails the indirect baker's assertion and the call aborts. -/
theorem invalidConfiguration_aborts :
    (∀ radius : ℤ, (GetKernel radius).isSome ↔ (radius = 0 ∨ radius = 1 ∨ radius = 2))
    ∧ (∀ (bakedIndirect : LightmapChartBakedIndirect)
        (bakedGeometry : LightmapChartBakedGeometry)
        (params : IndirectFilterParameters) (numThreads : ℕ),
        ¬(params.kernelRadius_ = 0 ∨ params.kernelRadius_ = 1 ∨ params.kernelRadius_ = 2) →
        FilterIndirectLight bakedIndirect bakedGeometry params numThreads = none)
    ∧ (∀ (bakedIndirect : LightmapChartBakedIndirect)
        (bakedDirectCharts : List LightmapChartBakedDirect)
        (bakedGeometry : LightmapChartBakedGeometry) (embreeScene : EmbreeScene)
        (settings : LightmapTracingSettings)
        (randomDirs : ℕ → ℕ → Vector3) (hits : ℕ → ℕ → Option RayHit)
        (chunkInitSamples : ℕ → ℕ → Vector3) (chunkInitFactors : ℕ → ℕ → ℝ),
        LightmapTracingSettings.MaxBounces < settings.numBounces_ →
        BakeIndirectLight bakedIndirect bakedDirectCharts bakedGeometry embreeScene settings
          randomDirs hits chunkInitSamples chunkInitFactors = none) := by
  refine ⟨fun radius => ?_, fun bakedIndirect bakedGeometry params numThreads hr => ?_,
    fun _ _ _ _ settings _ _ _ _ hb => ?_⟩
  · unfold GetKernel
    split_ifs with h0 h1 h2 <;> simp_all
  · have hk : GetKernel params.kernelRadius_ = none := by
      unfold GetKernel
      push_neg at hr
      rw [if_neg hr.1, if_neg hr.2.1, if_neg hr.2.2]
    simp only [FilterIndirectLight, hk]
  · simp only [BakeIndirectLight,
      if_neg (show ¬ settings.numBounces_ ≤ LightmapTracingSettings.MaxBounces by omega)]

/-- Witness for C9: kernel radius 3 aborts the filter, 17 bounces abort the
indirect baker. -/
theorem invalidConfiguration_aborts_witness :
    FilterIndirectLight exIndirect exGeom exParamsRadiusThree 1 = none ∧
    BakeIndirectLight exIndirect [exDirect] exGeom exScene exSettingsOverCap exDirs exHitsNone
      exStaleSamples exStaleFactors = none :=
  ⟨invalidConfiguration_aborts.2.1 exIndirect exGeom exParamsRadiusThree 1 (by decide),
   invalidConfiguration_aborts.2.2 exIndirect [exDirect] exGeom exScene exSettingsOverCap
     exDirs exHitsNone exStaleSamples exStaleFactors (by decide)⟩

/-- C6: the Monte-Carlo weight recorded at a hit bounce is
`brdf * cosTheta / probability` with `brdf = (1/π)/π` and
`probability = 1/(2π)`, which equals `2 * cosTheta / π`. -/
theorem bounceStep_weight (bakedDirect : List LightmapChartBakedDirect)
    (settings : LightmapTracingSettings)
    (randomDirs : ℕ → ℕ → Vector3) (hits : ℕ → ℕ → Option RayHit)
    (i j : ℕ) (st : PathState) (rayHit : RayHit) (hhit : hits i j = some rayHit) :
    ((bounceStep bakedDirect settings randomDirs hits i j st).factors j
      = (1 / Real.pi / Real.pi)
        * ((RandomHemisphereDirection st.currentNormal (randomDirs i j)).DotProduct
            st.currentNormal)
        / (1 / (2 * Real.pi)))
    ∧ ((bounceStep bakedDirect settings randomDirs hits i j st).factors j
      = 2 * ((RandomHemisphereDirection st.currentNormal (randomDirs i j)).DotProduct
            st.currentNormal)
        / Real.pi) := by
  have hfac : (bounceStep bakedDirect settings randomDirs hits i j st).factors j
      = (1 / Real.pi / Real.pi)
        * ((RandomHemisphereDirection st.currentNormal (randomDirs i j)).DotProduct
            st.currentNormal)
        / (1 / (2 * Real.pi)) := by
    simp only [bounceStep, hhit]
    by_cases hlt : st.numSamples + 1 < settings.numBounces_
    · simp only [if_pos hlt]
      exact Function.update_same _ _ _
    · simp only [if_neg hlt]
      exact Function.update_same _ _ _
  refine ⟨hfac, ?_⟩
  rw [hfac]
  have hπ := Real.pi_ne_zero
  field_simp
  ring

/-- Witness for C6 on the fixture trace in which every ray hits. -/
theorem bounceStep_weight_witness :
    (bounceStep [exDirect] exSettingsTwoBounces exDirs exHitsAll 0 0 exPathState).factors 0
      = 2 * ((RandomHemisphereDirection exPathState.currentNormal (exDirs 0 0)).DotProduct
          exPathState.currentNormal) / Real.pi :=
  (bounceStep_weight [exDirect] exSettingsTwoBounces exDirs exHitsAll 0 0 exPathState
    exHit rfl).2

/-- C8: the direct-light sample recorded at a hit bounce is always read from
chart index 0 of the supplied direct-buffer array, whatever geometry the ray
hit. -/
theorem bounceStep_samplesChartZero (bakedDirect : List LightmapChartBakedDirect)
    (settings : LightmapTracingSettings)
    (randomDirs : ℕ → ℕ → Vector3) (hits : ℕ → ℕ → Option RayHit)
    (i j : ℕ) (st : PathState) (rayHit : RayHit) (hhit : hits i j = some rayHit) :
    (bounceStep bakedDirect settings randomDirs hits i j st).samples j
      = (bakedDirect.getD 0 (LightmapChartBakedDirect.mkChart 0 0)).SampleNearest
          rayHit.lightmapUV := by
  simp only [bounceStep, hhit]
  by_cases hlt : st.numSamples + 1 < settings.numBounces_
  · simp only [if_pos hlt]
    exact Function.update_same _ _ _
  · simp only [if_neg hlt]
    exact Function.update_same _ _ _

/-- Witness for C8: with a two-chart array whose chart 1 is green and chart 0
is black, the recorded sample is chart 0's black. -/
theorem bounceStep_samplesChartZero_witness :
    (bounceStep [exDirect, exDirectGreen] exSettingsTwoBounces exDirs exHitsAll 0 0
        exPathState).samples 0
      = ([exDirect, exDirectGreen].getD 0 (LightmapChartBakedDirect.mkChart 0 0)).SampleNearest
          exHit.lightmapUV :=
  bounceStep_samplesChartZero [exDirect, exDirectGreen] exSettingsTwoBounces exDirs exHitsAll
    0 0 exPathState exHit rfl

/-- When every ray of the texel's trace misses, the whole bounce loop leaves
the path state unchanged. -/
theorem bounceFold_allMiss (bakedDirect : List LightmapChartBakedDirect)
    (settings : LightmapTracingSettings) (randomDirs : ℕ → ℕ → Vector3)
    (hits : ℕ → ℕ → Option RayHit) (i : ℕ) (hmiss : ∀ j, hits i j = none) :
    ∀ (l : List ℕ) (st : PathState),
      l.foldl (fun st j => bounceStep bakedDirect settings randomDirs hits i j st) st = st := by
  intro l
  induction l with
  | nil => intro st; rfl
  | cons a t ih =>
      intro st
      simp only [List.foldl_cons]
      have hstep : bounceStep bakedDirect settings randomDirs hits i a st = st := by
        simp only [bounceStep, hmiss a]
      rw [hstep]
      exact ih st

/-- C3 (amended): with `numBounces = 0`, or a trace in which every ray of the
texel's path misses, the RGB added by the indirect baker is zero — the `x`,
`y`, `z` components of the texel's entry are unchanged — but the entry is not
unchanged as a whole: the baker adds `Vector4(indirectLighting, 1)`, so the
alpha component of every non-empty texel grows by 1 (empty texels are fully
unchanged). -/
theorem bakeIndirectLight_zeroRGBAdded (bakedIndirect : LightmapChartBakedIndirect)
    (bakedDirectCharts : List LightmapChartBakedDirect)
    (bakedGeometry : LightmapChartBakedGeometry) (embreeScene : EmbreeScene)
    (settings : LightmapTracingSettings)
    (randomDirs : ℕ → ℕ → Vector3) (hits : ℕ → ℕ → Option RayHit)
    (chunkInitSamples : ℕ → ℕ → Vector3) (chunkInitFactors : ℕ → ℕ → ℝ) (i : ℕ)
    (hT : 1 ≤ settings.numThreads_)
    (hb : settings.numBounces_ ≤ LightmapTracingSettings.MaxBounces)
    (hi : i < bakedIndirect.size)
    (hmiss : settings.numBounces_ = 0 ∨ ∀ j, hits i j = none) :
    ∃ out,
      BakeIndirectLight bakedIndirect bakedDirectCharts bakedGeometry embreeScene settings
          randomDirs hits chunkInitSamples chunkInitFactors = some out
      ∧ (out.light_ i).x_ = (bakedIndirect.light_ i).x_
      ∧ (out.light_ i).y_ = (bakedIndirect.light_ i).y_
      ∧ (out.light_ i).z_ = (bakedIndirect.light_ i).z_
      ∧ (bakedGeometry.geometryIds_ i = 0 → out.light_ i = bakedIndirect.light_ i)
      ∧ (bakedGeometry.geometryIds_ i ≠ 0 →
          (out.light_ i).w_ = (bakedIndirect.light_ i).w_ + 1) := by
  obtain ⟨arr, harr⟩ := (parallelFor_texelA
    (indirectTexel bakedDirectCharts bakedGeometry settings randomDirs hits)
    (fun fromIndex => (chunkInitSamples fromIndex, chunkInitFactors fromIndex))
    bakedIndirect.size settings.numThreads_ hT bakedIndirect.light_ i).2 hi
  have hv : (indirectTexel bakedDirectCharts bakedGeometry settings randomDirs hits i
        (bakedIndirect.light_ i) arr).1
      = if bakedGeometry.geometryIds_ i = 0 then bakedIndirect.light_ i
        else (bakedIndirect.light_ i).add ⟨0, 0, 0, 1⟩ := by
    by_cases hg : bakedGeometry.geometryIds_ i = 0
    · simp only [indirectTexel, if_pos hg]
    · simp only [indirectTexel, if_neg hg]
      have hst : (List.range settings.numBounces_).foldl
          (fun st j => bounceStep bakedDirectCharts settings randomDirs hits i j st)
          ⟨0, bakedGeometry.geometryPositions_ i, bakedGeometry.smoothNormals_ i, arr.1, arr.2⟩
          = ⟨0, bakedGeometry.geometryPositions_ i, bakedGeometry.smoothNormals_ i,
              arr.1, arr.2⟩ := by
        rcases hmiss with h0 | hm
        · rw [h0]
          rfl
        · exact bounceFold_allMiss bakedDirectCharts settings randomDirs hits i hm _ _
      rw [hst]
      simp only [backToFront, List.range_zero, List.reverse_nil, List.foldl_nil, Vector3.zero]
  rcases hsome : BakeIndirectLight bakedIndirect bakedDirectCharts bakedGeometry embreeScene
      settings randomDirs hits chunkInitSamples chunkInitFactors with _ | out
  · exfalso
    simp only [BakeIndirectLight, if_pos hb] at hsome
    exact Option.noConfusion hsome
  · simp only [BakeIndirectLight, if_pos hb, Option.some.injEq] at hsome
    have hlight : out.light_ i
        = (indirectTexel bakedDirectCharts bakedGeometry settings randomDirs hits i
            (bakedIndirect.light_ i) arr).1 := by
      rw [← hsome]
      dsimp only
      exact harr
    have hval : out.light_ i
        = if bakedGeometry.geometryIds_ i = 0 then bakedIndirect.light_ i
          else (bakedIndirect.light_ i).add ⟨0, 0, 0, 1⟩ := by rw [hlight, hv]
    refine ⟨out, rfl, ?_⟩
    by_cases hg : bakedGeometry.geometryIds_ i = 0
    · rw [if_pos hg] at hval
      exact ⟨by rw [hval], by rw [hval], by rw [hval], fun _ => hval,
        fun hne => absurd hg hne⟩
    · rw [if_neg hg] at hval
      refine ⟨?_, ?_, ?_, fun h => absurd h hg, fun _ => ?_⟩ <;>
        rw [hval] <;> simp [Vector4.add]

/-- Witness for the amended C3 on the 1×1 fixture with zero bounces. -/
theorem bakeIndirectLight_zeroRGBAdded_witness :
    ∃ out,
      BakeIndirectLight exIndirect [exDirect] exGeom exScene exSettings exDirs exHitsNone
          exStaleSamples exStaleFactors = some out
      ∧ (out.light_ 0).x_ = (exIndirect.light_ 0).x_
      ∧ (out.light_ 0).y_ = (exIndirect.light_ 0).y_
      ∧ (out.light_ 0).z_ = (exIndirect.light_ 0).z_
      ∧ (exGeom.geometryIds_ 0 = 0 → out.light_ 0 = exIndirect.light_ 0)
      ∧ (exGeom.geometryIds_ 0 ≠ 0 → (out.light_ 0).w_ = (exIndirect.light_ 0).w_ + 1) :=
  bakeIndirectLight_zeroRGBAdded exIndirect [exDirect] exGeom exScene exSettings exDirs
    exHitsNone exStaleSamples exStaleFactors 0 (by decide) (by decide) (by decide)
    (Or.inl rfl)

/-- Counterexample to C3 as stated: on a 1×1 chart with a non-empty texel and
zero bounces, the indirect-buffer entry changes from `(0,0,0,0)` to
`(0,0,0,1)` — the addition is not zero (its alpha component is 1). -/
theorem bakeIndirectLight_entryChanges_counterexample :
    Option.map (fun c => c.light_ 0)
        (BakeIndirectLight exIndirect [exDirect] exGeom exScene exSettings exDirs exHitsNone
          exStaleSamples exStaleFactors)
      = some ⟨0, 0, 0, 1⟩
    ∧ exIndirect.light_ 0 = ⟨0, 0, 0, 0⟩
    ∧ (⟨0, 0, 0, 1⟩ : Vector4) ≠ ⟨0, 0, 0, 0⟩ := by
  refine ⟨?_, rfl, by simp [Vector4.mk.injEq]⟩
  obtain ⟨arr, harr⟩ := (parallelFor_texelA
    (indirectTexel [exDirect] exGeom exSettings exDirs exHitsNone)
    (fun fromIndex => (exStaleSamples fromIndex, exStaleFactors fromIndex))
    exIndirect.size exSettings.numThreads_ (by decide) exIndirect.light_ 0).2 (by decide)
  simp only [BakeIndirectLight, if_pos (show exSettings.numBounces_ ≤
    LightmapTracingSettings.MaxBounces by decide), Option.map_some']
  rw [harr]
  simp only [indirectTexel, exGeom, exSettings, backToFront]
  norm_num [Vector4.add, exIndirect, Vector4.zero, Vector3.zero]

theorem Vector4.smul_one (v : Vector4) : v.smul 1 = v := by
  simp [Vector4.smul]

theorem Vector4.divScalar_one (v : Vector4) : v.divScalar 1 = v := by
  simp [Vector4.divScalar]

/-- With the single-tap kernel `[1]` (radius 0) the filtered value of any
texel is exactly its current color: the kernel footprint contains only the
skipped center offset, the weight sum is `1 > M_EPSILON`, and the
normalization divides by 1. -/
theorem filterTexelValue_radiusZero (bakedGeometry : LightmapChartBakedGeometry)
    (light : ℕ → Vector4) (params : IndirectFilterParameters)
    (hrad : params.kernelRadius_ = 0) (index : ℕ) :
    filterTexelValue bakedGeometry light params [1] index = light index := by
  simp only [filterTexelValue, filterAccum, hrad]
  have hoff : (List.range ((2 * (0:ℤ) + 1)).toNat).map (fun k => -(0:ℤ) + (k : ℤ)) = [0] := by
    decide
  rw [hoff]
  simp only [List.foldl_cons, List.foldl_nil, filterTap,
    if_pos (⟨rfl, rfl⟩ : ((0:ℤ) = 0 ∧ (0:ℤ) = 0))]
  have hget : ([1] : List ℝ).getD 0 0 = 1 := rfl
  simp only [hget, mul_one, and_self, if_true]
  rw [max_eq_right (show M_EPSILON ≤ (1:ℝ) by norm_num [M_EPSILON])]
  rw [Vector4.smul_one, Vector4.divScalar_one]

/-- C7: `FilterIndirectLight` with kernel radius 0 is the identity on the
indirect buffer: after the internal swap, every texel of the current `light_`
buffer holds its pre-call value.  For empty texels this uses that the two
double buffers agree there (true from initialization on, since empty texels
are never written). -/
theorem filterIndirectLight_radiusZero_identity (bakedIndirect : LightmapChartBakedIndirect)
    (bakedGeometry : LightmapChartBakedGeometry) (params : IndirectFilterParameters)
    (numThreads : ℕ) (hrad : params.kernelRadius_ = 0) (hT : 1 ≤ numThreads)
    (hsync : ∀ j, j < bakedIndirect.size → bakedGeometry.geometryIds_ j = 0 →
      bakedIndirect.lightSwap_ j = bakedIndirect.light_ j) :
    ∃ out, FilterIndirectLight bakedIndirect bakedGeometry params numThreads = some out
      ∧ ∀ j, j < bakedIndirect.size → out.light_ j = bakedIndirect.light_ j := by
  have hk : GetKernel params.kernelRadius_ = some [1] := by
    rw [hrad]
    rfl
  rcases hsome : FilterIndirectLight bakedIndirect bakedGeometry params numThreads
      with _ | out
  · exfalso
    simp only [FilterIndirectLight, hk] at hsome
    exact Option.noConfusion hsome
  · simp only [FilterIndirectLight, hk, Option.some.injEq] at hsome
    refine ⟨out, rfl, fun j hj => ?_⟩
    have hlight : out.light_ j
        = ParallelFor bakedIndirect.size numThreads
            (fun fromIndex toIndex s =>
              forRange fromIndex toIndex
                (texelUpdate (filterTexel bakedGeometry bakedIndirect.light_ params [1])) s)
            bakedIndirect.lightSwap_ j := by
      rw [← hsome]
    rw [hlight,
      (parallelFor_texelG (filterTexel bakedGeometry bakedIndirect.light_ params [1])
        bakedIndirect.size numThreads hT bakedIndirect.lightSwap_ j).2 hj]
    by_cases hg : bakedGeometry.geometryIds_ j = 0
    · simp only [filterTexel, if_pos hg]
      exact hsync j hj hg
    · simp only [filterTexel, if_neg hg]
      exact filterTexelValue_radiusZero bakedGeometry bakedIndirect.light_ params hrad j

/-- Witness for C7 on the 1×1 fixture. -/
theorem filterIndirectLight_radiusZero_identity_witness :
    ∃ out, FilterIndirectLight exIndirect exGeom exParamsRadiusZero 1 = some out
      ∧ ∀ j, j < exIndirect.size → out.light_ j = exIndirect.light_ j :=
  filterIndirectLight_radiusZero_identity exIndirect exGeom exParamsRadiusZero 1 rfl
    (by decide) (fun _ _ _ => rfl)

/-- Every edge-stopping weight is nonnegative: it is a positive exponential
times a nonnegative real power of a clamped dot product. -/
theorem calculateEdgeWeight_nonneg (luminance1 luminance2 luminanceSigma : ℝ)
    (position1 position2 : Vector3) (positionSigma : ℝ)
    (normal1 normal2 : Vector3) (normalPower : ℝ) :
    0 ≤ CalculateEdgeWeight luminance1 luminance2 luminanceSigma
        position1 position2 positionSigma normal1 normal2 normalPower := by
  unfold CalculateEdgeWeight
  exact mul_nonneg (Real.exp_pos _).le (Real.rpow_nonneg (le_max_left 0 _) normalPower)

/-- Every entry read from a supported Gauss kernel is nonnegative. -/
theorem kernel_getD_nonneg (radius : ℤ) (kernelWeights : List ℝ)
    (hk : GetKernel radius = some kernelWeights) :
    ∀ n, 0 ≤ kernelWeights.getD n 0 := by
  unfold GetKernel at hk
  split_ifs at hk with h0 h1 h2
  · injection hk with hk
    subst hk
    intro n
    rcases n with _ | n <;> norm_num [List.getD]
  · injection hk with hk
    subst hk
    intro n
    rcases n with _ | _ | n <;> norm_num [List.getD]
  · injection hk with hk
    subst hk
    intro n
    rcases n with _ | _ | _ | n <;> norm_num [List.getD]

/-- A fold whose step never decreases the second (weight-sum) component keeps
it at least at its initial value. -/
theorem foldl_snd_mono {α β : Type*} (f : (α × ℝ) → β → (α × ℝ))
    (hf : ∀ acc x, acc.2 ≤ (f acc x).2) :
    ∀ (l : List β) (acc : α × ℝ), acc.2 ≤ (l.foldl f acc).2 := by
  intro l
  induction l with
  | nil => intro acc; exact le_rfl
  | cons a t ih => intro acc; exact le_trans (hf acc a) (ih (f acc a))

/-- The filter's accumulated weight sum never drops below its initial value
`kernel[0] * kernel[0]`. -/
theorem filterAccum_weightSum_ge (bakedGeometry : LightmapChartBakedGeometry)
    (light : ℕ → Vector4) (params : IndirectFilterParameters)
    (kernelWeights : List ℝ) (index : ℕ)
    (hker : ∀ n, 0 ≤ kernelWeights.getD n 0) :
    kernelWeights.getD 0 0 * kernelWeights.getD 0 0
      ≤ (filterAccum bakedGeometry light params kernelWeights index).2 := by
  simp only [filterAccum]
  show (((light index).smul (kernelWeights.getD 0 0 * kernelWeights.getD 0 0),
      kernelWeights.getD 0 0 * kernelWeights.getD 0 0) : Vector4 × ℝ).2 ≤ _
  apply foldl_snd_mono
  intro acc dy
  apply foldl_snd_mono
  intro acc dx
  simp only [filterTap]
  split_ifs <;>
    first
      | exact le_rfl
      | exact le_add_of_nonneg_right
          (mul_nonneg (calculateEdgeWeight_nonneg _ _ _ _ _ _ _ _ _)
            (mul_nonneg (hker _) (hker _)))

/-- C10: every edge-stopping weight is nonnegative, so for every supported
kernel radius the filter's weight sum stays at least `kernel[0]²`, which
exceeds `M_EPSILON`; hence `max M_EPSILON weightSum = weightSum` and the
normalization never divides by the epsilon floor. -/
theorem filterWeights_safe :
    (∀ (luminance1 luminance2 luminanceSigma : ℝ) (position1 position2 : Vector3)
      (positionSigma : ℝ) (normal1 normal2 : Vector3) (normalPower : ℝ),
      0 ≤ CalculateEdgeWeight luminance1 luminance2 luminanceSigma
          position1 position2 positionSigma normal1 normal2 normalPower)
    ∧ (∀ (radius : ℤ) (kernelWeights : List ℝ), GetKernel radius = some kernelWeights →
        M_EPSILON < kernelWeights.getD 0 0 * kernelWeights.getD 0 0
        ∧ ∀ (bakedGeometry : LightmapChartBakedGeometry) (light : ℕ → Vector4)
            (params : IndirectFilterParameters) (index : ℕ),
            kernelWeights.getD 0 0 * kernelWeights.getD 0 0
              ≤ (filterAccum bakedGeometry light params kernelWeights index).2
            ∧ max M_EPSILON (filterAccum bakedGeometry light params kernelWeights index).2
              = (filterAccum bakedGeometry light params kernelWeights index).2) := by
  refine ⟨calculateEdgeWeight_nonneg, fun radius kernelWeights hk => ?_⟩
  have hker := kernel_getD_nonneg radius kernelWeights hk
  have hsq : M_EPSILON < kernelWeights.getD 0 0 * kernelWeights.getD 0 0 := by
    unfold GetKernel at hk
    split_ifs at hk with h0 h1 h2
    · injection hk with hk
      subst hk
      norm_num [List.getD, M_EPSILON]
    · injection hk with hk
      subst hk
      norm_num [List.getD, M_EPSILON]
    · injection hk with hk
      subst hk
      norm_num [List.getD, M_EPSILON]
  refine ⟨hsq, fun bakedGeometry light params index => ?_⟩
  have hge := filterAccum_weightSum_ge bakedGeometry light params kernelWeights index hker
  exact ⟨hge, max_eq_right (le_trans hsq.le hge)⟩

/-- Witness for C10 at radius 0 on the 1×1 fixture. -/
theorem filterWeights_safe_witness :
    M_EPSILON < ([1] : List ℝ).getD 0 0 * ([1] : List ℝ).getD 0 0
    ∧ max M_EPSILON (filterAccum exGeom (fun _ => Vector4.zero) exParamsRadiusZero [1] 0).2
      = (filterAccum exGeom (fun _ => Vector4.zero) exParamsRadiusZero [1] 0).2 :=
  ⟨(filterWeights_safe.2 0 [1] rfl).1,
   ((filterWeights_safe.2 0 [1] rfl).2 exGeom (fun _ => Vector4.zero) exParamsRadiusZero 0).2⟩

/-- C5 evaluated at a failing input: one texel, two bounces, bounce 0 misses
and bounce 1 hits.  The hit's sample `(0,1,0)` and weight are recorded at
array slot 1, but the back-to-front loop runs over slots `[0, numSamples) =
[0, 1)` and so combines the uninitialized slot 0 (stale sample `(5,0,0)`,
stale weight `7`): the texel receives `(35, 0, 0, 1)`.  Combining the actually
recorded pair `((0,1,0), weight)` back-to-front would give x-component 0, not
35. -/
theorem bakeIndirect_staleSlot_evaluation :
    Option.map (fun c => c.light_ 0)
        (BakeIndirectLight exIndirect [exDirectGreen] exGeom exScene exSettingsTwoBounces
          exDirs exHitsSecondBounce exStaleSamples exStaleFactors)
      = some ⟨35, 0, 0, 1⟩
    ∧ (backToFrontPairs [(⟨0, 1, 0⟩, 2 / Real.pi)]).x_ = 0
    ∧ (35:ℝ) ≠ 0 := by
  refine ⟨?_, ?_, by norm_num⟩
  · have hb2 : exSettingsTwoBounces.numBounces_ ≤ LightmapTracingSettings.MaxBounces := by
      decide
    have hrange1 : List.range 1 = [0] := rfl
    have hrange2 : List.range 2 = [0, 1] := rfl
    have hrangeP : List.range' 0 (1 - 0) = [0] := rfl
    simp only [BakeIndirectLight, if_pos hb2, Option.map_some', Option.some.injEq]
    simp only [ParallelFor, chunkSize, chunkFrom, chunkTo, LightmapChartBakedIndirect.size,
      exIndirect, exSettingsTwoBounces]
    norm_num
    simp only [hrange1, hrangeP, List.foldl_cons, List.foldl_nil, forRange, texelUpdateA,
      indirectTexel, exGeom, exHitsSecondBounce, exDirs, exStaleSamples, exStaleFactors,
      bounceStep, hrange2, backToFront, backToFrontPairs, Function.update_same,
      Function.update_noteq, exHit]
    norm_num [Vector3.add, Vector3.smul, Vector3.zero, Vector4.add, Vector4.zero,
      Function.update_same, Function.update_noteq, Vector4.mk.injEq]
    simp only [hrange1, List.foldr_cons, List.foldr_nil,
      Function.update_noteq (show (0:ℕ) ≠ 1 by decide), exStaleSamples, exStaleFactors]
    norm_num
  · simp only [backToFrontPairs, List.reverse_cons, List.reverse_nil, List.nil_append,
      List.foldl_cons, List.foldl_nil, Vector3.add, Vector3.smul, Vector3.zero]
    norm_num

end

end Urho3D
